/-
Verification of the playlist record parser (convert_playlists.py).

The parser normalizes heterogeneous playlist lines (tab-, two-space-, and
single-whitespace-delimited text, and JSON objects) into records
(name, url, ovol).  This file gives a shallow embedding of the parsing
functions of class PlaylistConverter and proves / refutes the stated
properties of the specification.

Python's machine-level string helpers (str.strip, str.split, re.split on
two-or-more spaces, int(), str() of values) are embedded as executable Lean
functions over character lists.  JSON values decoded by json.loads are
embedded as the inductive type JVal (numbers restricted to integers, which
is the only numeric shape the claims exercise); Python exceptions escaping
the parser are embedded with Except PyErr.
-/
import Mathlib

namespace Webstations

/-! ### Python string primitives -/

/-- Python whitespace recognized by str.strip / str.split. -/
def pyWS (c : Char) : Bool :=
  c = ' ' ∨ c = '\t' ∨ c = '\n' ∨ c = '\r' ∨ c = '\x0b' ∨ c = '\x0c'

/-- Python str.strip(): drop leading and trailing whitespace. -/
def pyStrip (s : String) : String :=
  String.mk (((s.data.dropWhile pyWS).reverse.dropWhile pyWS).reverse)

/-- Python str.strip(chr): here only used as str.strip of the quote character. -/
def stripQuotes (s : String) : String :=
  String.mk (((s.data.dropWhile (fun c => c = '"')).reverse.dropWhile (fun c => c = '"')).reverse)

/-- Python str.split(sep) for a one-character separator: keeps empty pieces. -/
def splitOnChar (sep : Char) : List Char → List (List Char)
  | [] => [[]]
  | c :: rest =>
    if c = sep then [] :: splitOnChar sep rest
    else
      match splitOnChar sep rest with
      | [] => [[c]]
      | h :: t => (c :: h) :: t

/-- Helper for Python str.split() with no argument: split on whitespace runs,
dropping empty pieces.  `cur` is the (reversed) token being accumulated. -/
def splitWSAux (cur : List Char) : List Char → List (List Char)
  | [] => if cur.isEmpty then [] else [cur.reverse]
  | c :: rest =>
    if pyWS c then
      if cur.isEmpty then splitWSAux [] rest
      else cur.reverse :: splitWSAux [] rest
    else splitWSAux (c :: cur) rest

/-- Python line.split() (split on runs of whitespace, no empty tokens). -/
def pySplitWS (s : String) : List String :=
  (splitWSAux [] s.data).map String.mk

theorem length_dropWhile_le' (p : α → Bool) (l : List α) :
    (l.dropWhile p).length ≤ l.length := by
  induction l with
  | nil => simp [List.dropWhile]
  | cons c rest ih =>
    by_cases h : p c
    · simp only [List.dropWhile_cons_of_pos h]
      exact Nat.le_succ_of_le ih
    · simp [List.dropWhile_cons_of_neg h]

/-- Python str.startswith, over the character lists. -/
def pyStartsWith (s pre : String) : Bool :=
  pre.data.isPrefixOf s.data

mutual

/-- Helper for re.split of two-or-more consecutive spaces: a run of at least
two spaces is a separator (the whole maximal run is consumed); everything
else, single spaces included, stays inside the current piece.  `cur` is the
(reversed) piece being accumulated. -/
def twoSpaceAux (cur : List Char) : List Char → List (List Char)
  | [] => [cur.reverse]
  | ' ' :: ' ' :: rest => cur.reverse :: twoSpaceSkip rest
  | c :: rest => twoSpaceAux (c :: cur) rest

/-- Consumes the remainder of a separator run of spaces, then resumes
accumulating the next piece. -/
def twoSpaceSkip : List Char → List (List Char)
  | [] => [[]]
  | ' ' :: rest => twoSpaceSkip rest
  | c :: rest => twoSpaceAux [c] rest

end

/-- Python re.split of the pattern of two or more spaces (keeps empty pieces). -/
def splitTwoSpace (s : String) : List String :=
  (twoSpaceAux [] s.data).map String.mk

/-- Substring test (Python `pat in s`), over character lists. -/
def hasSubstr (pat : List Char) : List Char → Bool
  | [] => pat.isEmpty
  | c :: rest => pat.isPrefixOf (c :: rest) || hasSubstr pat rest

/-- Python ' '.join. -/
def joinSpace : List String → String
  | [] => ""
  | [t] => t
  | t :: ts => t ++ " " ++ joinSpace ts

/-! ### Python int() on strings -/

/-- Numeric value of a decimal digit character. -/
def digitVal (c : Char) : Nat := c.toNat - 48

/-- Digits of a Python int literal after the first digit: decimal digits with
single underscores allowed between digits. -/
def digitsCore : List Char → Nat → Option Nat
  | [], acc => some acc
  | c :: rest, acc =>
    if c = '_' then
      match rest with
      | c2 :: rest2 => if c2.isDigit then digitsCore rest2 (acc * 10 + digitVal c2) else none
      | [] => none
    else if c.isDigit then digitsCore rest (acc * 10 + digitVal c)
    else none

/-- The digit part of a Python int literal: at least one decimal digit. -/
def digitsToNat : List Char → Option Nat
  | [] => none
  | c :: rest => if c.isDigit then digitsCore rest (digitVal c) else none

/-- Python int(s): strip whitespace, optional sign, decimal digits.
Returns none where Python raises ValueError. -/
def pyInt (s : String) : Option Int :=
  match (pyStrip s).data with
  | [] => none
  | c :: rest =>
    if c = '+' then (digitsToNat rest).map (fun n => (n : Int))
    else if c = '-' then (digitsToNat rest).map (fun n => -(n : Int))
    else (digitsToNat (c :: rest)).map (fun n => (n : Int))

/-! ### Token classification primitives (PlaylistConverter) -/

/-- _is_url (convert_playlists.py line 197): token contains a dot and a slash
or the "://" sequence, or starts with "http". -/
def _is_url (token : String) : Bool :=
  (token.data.contains '.' &&
    (token.data.contains '/' || hasSubstr "://".data token.data)) ||
  pyStartsWith token "http"

/-- _is_ovol (line 201): the token parses as an int in [-64, 64]. -/
def _is_ovol (token : String) : Bool :=
  match pyInt token with
  | some val => decide (-64 ≤ val) && decide (val ≤ 64)
  | none => false

/-- _parse_ovol (line 209): parse the int and clamp to [-30, 30]; 0 on failure. -/
def _parse_ovol (token : String) : Int :=
  match pyInt token with
  | some val => max (-30) (min 30 val)
  | none => 0

/-- _normalize_url (line 217): strip, then prepend "http://" when no scheme. -/
def _normalize_url (url : String) : String :=
  let url := pyStrip url
  if ¬ pyStartsWith url "http://" ∧ ¬ pyStartsWith url "https://" then
    "http://" ++ url
  else url

/-! ### url_to_name (line 24) -/

/-- One appended character of the url_to_name loop body: the characters
/, =, &, ? become a single hyphen (no two hyphens in a row, nothing at the
very start); every other character is kept. -/
def appendNameChar (acc : List Char) (c : Char) : List Char :=
  if c = '/' ∨ c = '=' ∨ c = '&' ∨ c = '?' then
    if 0 < acc.length ∧ acc.getLast? ≠ some '-' then acc ++ ['-'] else acc
  else acc ++ [c]

/-- Whether the first character of the rest of the scan is a digit
(Python start[i+1].isdigit() guarded by i+1 < len(start)). -/
def headIsDigit : List Char → Bool
  | d :: _ => d.isDigit
  | [] => false

mutual

/-- The character scan of url_to_name: stops when max_len - 1 characters are
accumulated; on a colon followed by a digit the port segment is skipped up
to the next slash (ending the scan when no slash follows).  The colon that
starts the port is consumed by the skip (it is not a slash). -/
def urlToNameLoop (maxLen : Nat) : List Char → List Char → List Char
  | [], acc => acc
  | c :: rest, acc =>
    if maxLen - 1 ≤ acc.length then acc
    else if c = ':' ∧ headIsDigit rest then urlToNameSkip maxLen rest acc
    else urlToNameLoop maxLen rest (appendNameChar acc c)

/-- The port skip of url_to_name: advance to the next slash; when the input
ends first, the whole scan stops; the slash itself is processed by the
ordinary character step and the scan resumes after it. -/
def urlToNameSkip (maxLen : Nat) : List Char → List Char → List Char
  | [], acc => acc
  | c :: rest, acc =>
    if c = '/' then urlToNameLoop maxLen rest (appendNameChar acc c)
    else urlToNameSkip maxLen rest acc

end

/-- url_to_name (line 24): strip the scheme, scan with the loop above, trim
trailing hyphens.  Python slicing url[7:] / url[8:] is the character drop. -/
def url_to_name (url : String) (max_len : Nat := 128) : String :=
  let start :=
    if pyStartsWith url "http://" then String.mk (url.data.drop 7)
    else if pyStartsWith url "https://" then String.mk (url.data.drop 8)
    else url
  let cs := urlToNameLoop max_len start.data []
  String.mk ((cs.reverse.dropWhile (fun c => c = '-')).reverse)

/-! ### Delimited-line parsers -/

/-- The normalized output unit (name, url, ovol). -/
structure Record where
  name : String
  url : String
  ovol : Int
  deriving Repr, DecidableEq

/-- Tokens of _parse_tab_delimited (line 55): split on tabs, strip every
piece, drop empty pieces. -/
def tokenizeTab (line : String) : List String :=
  ((splitOnChar '\t' line.data).map (fun cs => pyStrip (String.mk cs))).filter
    (fun t => t ≠ "")

/-- Tokens of _parse_two_space_delimited (line 144): split on runs of two or
more spaces, strip every piece, drop empty pieces. -/
def tokenizeTwoSpace (line : String) : List String :=
  ((splitTwoSpace line).map pyStrip).filter (fun t => t ≠ "")

/-- Token-list logic of _parse_tab_delimited (lines 56-107).
t = 1: the token must be a URL, the name is derived from it.
t = 2: one token must be a URL (last write of the index scan wins), the
other is the name verbatim.
t ≥ 3: first URL token, then first ovol token among the others, then the
first remaining non-empty token as name (URL-derived when none). -/
def parseTabTokens (tokens : List String) : Option Record :=
  match tokens with
  | [] => none
  | [tok] =>
    if _is_url tok then
      let url := _normalize_url tok
      some ⟨url_to_name url, url, 0⟩
    else none
  | [t0, t1] =>
    let p : Option Nat × Option Nat :=
      if _is_url t0 then (some 0, none) else (none, some 0)
    let p : Option Nat × Option Nat :=
      if _is_url t1 then (some 1, p.2) else (p.1, some 1)
    match p with
    | (some ui, some ni) =>
      some ⟨[t0, t1].getD ni "", _normalize_url ([t0, t1].getD ui ""), 0⟩
    | _ => none
  | toks =>
    match toks.findIdx? _is_url with
    | none => none
    | some ui =>
      let ovolPair := toks.enum.find? (fun it => decide (it.1 ≠ ui) && _is_ovol it.2)
      let ovolIdx : Option Nat := ovolPair.map (fun it => it.1)
      let ovol : Int := match ovolPair with
        | some it => _parse_ovol it.2
        | none => 0
      let namePair := toks.enum.find?
        (fun it => decide (it.1 ≠ ui) && decide (ovolIdx ≠ some it.1) && decide (it.2 ≠ ""))
      let url := _normalize_url (toks.getD ui "")
      let name := match namePair with
        | some it => it.2
        | none => url_to_name url
      some ⟨name, url, ovol⟩

/-- Token-list logic of _parse_two_space_delimited (lines 145-195): a
verbatim second copy of the tab-delimited token logic. -/
def parseTwoSpaceTokens (tokens : List String) : Option Record :=
  match tokens with
  | [] => none
  | [tok] =>
    if _is_url tok then
      let url := _normalize_url tok
      some ⟨url_to_name url, url, 0⟩
    else none
  | [t0, t1] =>
    let p : Option Nat × Option Nat :=
      if _is_url t0 then (some 0, none) else (none, some 0)
    let p : Option Nat × Option Nat :=
      if _is_url t1 then (some 1, p.2) else (p.1, some 1)
    match p with
    | (some ui, some ni) =>
      some ⟨[t0, t1].getD ni "", _normalize_url ([t0, t1].getD ui ""), 0⟩
    | _ => none
  | toks =>
    match toks.findIdx? _is_url with
    | none => none
    | some ui =>
      let ovolPair := toks.enum.find? (fun it => decide (it.1 ≠ ui) && _is_ovol it.2)
      let ovolIdx : Option Nat := ovolPair.map (fun it => it.1)
      let ovol : Int := match ovolPair with
        | some it => _parse_ovol it.2
        | none => 0
      let namePair := toks.enum.find?
        (fun it => decide (it.1 ≠ ui) && decide (ovolIdx ≠ some it.1) && decide (it.2 ≠ ""))
      let url := _normalize_url (toks.getD ui "")
      let name := match namePair with
        | some it => it.2
        | none => url_to_name url
      some ⟨name, url, ovol⟩

/-- _parse_tab_delimited (line 53). -/
def _parse_tab_delimited (line : String) : Option Record :=
  parseTabTokens (tokenizeTab line)

/-- _parse_two_space_delimited (line 141). -/
def _parse_two_space_delimited (line : String) : Option Record :=
  parseTwoSpaceTokens (tokenizeTwoSpace line)

/-- _parse_space_delimited (line 109): tokens are line.split(); the first URL
token is required.  URL at index > 0: name is the first token and the last
token is probed as ovol.  URL at index 0: name is the space-join of the
tokens after the URL and ovol is 0.  An empty name falls back to the
URL-derived name. -/
def _parse_space_delimited (line : String) : Option Record :=
  let tokens := pySplitWS line
  match tokens.findIdx? _is_url with
  | none => none
  | some ui =>
    let url := _normalize_url (tokens.getD ui "")
    let nameOvol : String × Int :=
      if 0 < ui then
        let lastToken := tokens.getLast?.getD ""
        (tokens.getD 0 "", if _is_ovol lastToken then _parse_ovol lastToken else 0)
      else
        (if ui + 1 < tokens.length then joinSpace (tokens.drop (ui + 1)) else "", 0)
    let name := if nameOvol.1 = "" then url_to_name url else nameOvol.1
    some ⟨name, url, nameOvol.2⟩

/-! ### JSON values and parse_json_line (line 224)

parse_json_line strips the line, rejects blank and bracket lines, strips a
trailing comma, and feeds the line to json.loads; a JSONDecodeError yields
None.  Everything from line 235 on operates on the decoded value and is
embedded below over the decoded value directly (JVal).  json.loads of a
syntactically valid line is the identity at this level, so decode failures
are outside this model.  Only line 233 catches an exception — any other
Python error (AttributeError on a non-dict value or a non-str url field)
escapes to the caller, embedded as Except.error. -/

/-- A decoded JSON value (json.loads result).  Numbers are restricted to
integers; Python floats are outside the model. -/
inductive JVal where
  | jnull : JVal
  | jbool : Bool → JVal
  | jnum : Int → JVal
  | jstr : String → JVal
  | jarr : List JVal → JVal
  | jobj : List (String × JVal) → JVal
  deriving Repr

/-- Python exceptions that can escape parse_json_line. -/
inductive PyErr where
  | attributeError : PyErr
  deriving Repr, DecidableEq

/-- The record built by parse_json_line: the name keeps the raw JSON value
found under the name keys (Python does not convert it to a string). -/
structure JRecord where
  name : JVal
  url : String
  ovol : Int
  deriving Repr

/-- Python truthiness of a decoded JSON value. -/
def truthy : JVal → Bool
  | .jnull => false
  | .jbool b => b
  | .jnum n => decide (n ≠ 0)
  | .jstr s => decide (s ≠ "")
  | .jarr xs => !xs.isEmpty
  | .jobj fs => !fs.isEmpty

/-- Python `a or b` on decoded values: first truthy operand wins. -/
def jor (a b : JVal) : JVal := if truthy a then a else b

/-- Dictionary lookup (Python `obj[k]` / the some-case of obj.get). -/
def jget (fs : List (String × JVal)) (k : String) : Option JVal :=
  (fs.find? (fun p => p.1 = k)).map (fun p => p.2)

/-- Python obj.get(k): missing keys give None (jnull). -/
def jgetd (fs : List (String × JVal)) (k : String) : JVal :=
  (jget fs k).getD .jnull

/-- Truthiness of `k in obj and obj[k]`. -/
def truthyOpt : Option JVal → Bool
  | some v => truthy v
  | none => false

mutual

/-- Python repr() of a decoded JSON value, up to string-escaping details
(none of the parser's decisions depend on the repr of a composite value:
such strings never parse as integers). -/
def pyRepr : JVal → String
  | .jnull => "None"
  | .jbool true => "True"
  | .jbool false => "False"
  | .jnum n => toString n
  | .jstr s => "'" ++ s ++ "'"
  | .jarr xs => "[" ++ String.intercalate ", " (pyReprList xs) ++ "]"
  | .jobj fs => "\x7b" ++ String.intercalate ", " (pyReprFields fs) ++ "\x7d"

/-- repr of the elements of a list value. -/
def pyReprList : List JVal → List String
  | [] => []
  | v :: vs => pyRepr v :: pyReprList vs

/-- repr of the fields of an object value. -/
def pyReprFields : List (String × JVal) → List String
  | [] => []
  | p :: ps => ("'" ++ p.1 ++ "': " ++ pyRepr p.2) :: pyReprFields ps

end

/-- Python str() of a decoded JSON value: a str is itself, everything else
is its repr. -/
def pyStr : JVal → String
  | .jstr s => s
  | v => pyRepr v

/-- Name resolution (line 236): obj.get(name) or obj.get(Name) or
obj.get(title) or the empty string. -/
def resolveName (fs : List (String × JVal)) : JVal :=
  jor (jor (jor (jgetd fs "name") (jgetd fs "Name")) (jgetd fs "title")) (.jstr "")

/-- URL from the url_resolved / url keys (lines 240-245): a key that is
present with a truthy value wins, url_resolved first. -/
def urlFromKeys (fs : List (String × JVal)) : Option JVal :=
  if truthyOpt (jget fs "url_resolved") then jget fs "url_resolved"
  else if truthyOpt (jget fs "url") then jget fs "url"
  else none

/-- URL synthesis from host/file/port (lines 246-269).  Result: no URL
(falsy host), a synthesized URL string, or the AttributeError raised by
file.startswith on a truthy non-str file value. -/
def synthUrl (fs : List (String × JVal)) : Except PyErr (Option String) :=
  let host := jor (jor (jgetd fs "host") (jgetd fs "URL")) (.jstr "")
  let file := jor (jor (jgetd fs "file") (jgetd fs "File")) (.jstr "")
  let portStr := jor (jor (jgetd fs "port") (jgetd fs "Port")) (.jstr "80")
  let port : Int := (pyInt (pyStr portStr)).getD 80
  if truthy host then
    let protocol := if port = 443 then "https://" else "http://"
    if truthy file then
      match file with
      | .jstr f =>
        let filePart := if pyStartsWith f "/" then f else "/" ++ f
        if (protocol = "http://" ∧ port ≠ 80) ∨ (protocol = "https://" ∧ port ≠ 443) then
          .ok (some (protocol ++ pyStr host ++ ":" ++ toString port ++ filePart))
        else .ok (some (protocol ++ pyStr host ++ filePart))
      | _ => .error .attributeError
    else
      if (protocol = "http://" ∧ port ≠ 80) ∨ (protocol = "https://" ∧ port ≠ 443) then
        .ok (some (protocol ++ pyStr host ++ ":" ++ toString port))
      else .ok (some (protocol ++ pyStr host))
  else .ok none

/-- Full URL resolution (lines 238-271), including the AttributeError of
url.strip() on a truthy non-str url_resolved / url value.  The later blank
check (line 270) is applied by the caller. -/
def resolveUrl (fs : List (String × JVal)) : Except PyErr (Option String) :=
  match urlFromKeys fs with
  | some (.jstr s) => .ok (some s)
  | some _ => .error .attributeError
  | none => synthUrl fs

/-- Ovol resolution (lines 273-278): obj.get(ovol) or obj.get(Ovol) or "0",
via str(), strip('"'), int(), clamped to [-30, 30]; 0 on any failure. -/
def resolveOvol (fs : List (String × JVal)) : Int :=
  let ovolbuf := jor (jor (jgetd fs "ovol") (jgetd fs "Ovol")) (.jstr "0")
  match pyInt (stripQuotes (pyStr ovolbuf)) with
  | some val => max (-30) (min 30 val)
  | none => 0

/-- The body of parse_json_line on the decoded JSON value (lines 235-282).
Non-object values raise AttributeError at the first obj.get call. -/
def parseJsonObj (v : JVal) : Except PyErr (Option JRecord) :=
  match v with
  | .jobj fs =>
    let name := resolveName fs
    match resolveUrl fs with
    | .error e => .error e
    | .ok none => .ok none
    | .ok (some u) =>
      if pyStrip u = "" then .ok none
      else
        let url := _normalize_url u
        let ovol := resolveOvol fs
        let name := if truthy name then name else .jstr (url_to_name url)
        .ok (some ⟨name, url, ovol⟩)
  | _ => .error .attributeError

/-- The object serialized for one record by write_json_output (line 294):
keys name, url and ovol in insertion order, ovol rendered as str(ovol).
json.dumps of this object followed by json.loads in parse_json_line is the
identity at the JVal level (the dumps output is brace-delimited, has no
surrounding whitespace and no trailing comma, so the line-level
preprocessing of parse_json_line does not alter it). -/
def writeJsonEntry (name url : String) (ovol : Int) : JVal :=
  .jobj [("name", .jstr name), ("url", .jstr url), ("ovol", .jstr (toString ovol))]

/-! ### Generic helper lemmas -/

theorem dropWhile_eq_self_of_forall (p : α → Bool) (l : List α)
    (h : ∀ c ∈ l, p c = false) : l.dropWhile p = l := by
  cases l with
  | nil => rfl
  | cons c rest =>
    rw [List.dropWhile_cons_of_neg]
    simp [h c (List.mem_cons_self c rest)]

theorem string_mk_data (s : String) : String.mk s.data = s := rfl

theorem string_mk_eq_empty_iff (l : List Char) : String.mk l = "" ↔ l = [] := by
  constructor
  · intro h
    have := congrArg String.data h
    simpa using this
  · intro h; rw [h]

theorem pyStrip_eq_self {s : String} (h : ∀ c ∈ s.data, pyWS c = false) :
    pyStrip s = s := by
  unfold pyStrip
  rw [dropWhile_eq_self_of_forall _ _ h,
      dropWhile_eq_self_of_forall _ _ (by intro c hc; exact h c (List.mem_reverse.mp hc)),
      List.reverse_reverse, string_mk_data]

theorem stripQuotes_eq_self {s : String} (h : ∀ c ∈ s.data, (c = '"' : Bool) = false) :
    stripQuotes s = s := by
  unfold stripQuotes
  rw [dropWhile_eq_self_of_forall _ _ h,
      dropWhile_eq_self_of_forall _ _ (by intro c hc; exact h c (List.mem_reverse.mp hc)),
      List.reverse_reverse, string_mk_data]

/-! ### Decimal rendering: Nat.toDigits and Int.toString -/

/-- The ten decimal digit characters. -/
def dchars : List Char := ['0', '1', '2', '3', '4', '5', '6', '7', '8', '9']

/-- Value of a decimal digit string. -/
def decVal (l : List Char) : Nat :=
  l.foldl (fun a c => a * 10 + digitVal c) 0

theorem digitChar_mem_dchars (k : Nat) (h : k < 10) : Nat.digitChar k ∈ dchars := by
  interval_cases k <;> decide

theorem digitVal_digitChar (k : Nat) (h : k < 10) : digitVal (Nat.digitChar k) = k := by
  interval_cases k <;> decide

theorem dchars_isDigit {c : Char} (h : c ∈ dchars) : c.isDigit = true := by
  fin_cases h <;> decide

theorem dchars_not_pyWS {c : Char} (h : c ∈ dchars) : pyWS c = false := by
  fin_cases h <;> decide

theorem dchars_ne_quote {c : Char} (h : c ∈ dchars) : (c = '"' : Bool) = false := by
  fin_cases h <;> decide

theorem dchars_ne_plus {c : Char} (h : c ∈ dchars) : c ≠ '+' := by
  fin_cases h <;> decide

theorem dchars_ne_minus {c : Char} (h : c ∈ dchars) : c ≠ '-' := by
  fin_cases h <;> decide

theorem toDigitsCore_shift :
    ∀ (n fuel : Nat) (ds : List Char), n < fuel →
      Nat.toDigitsCore 10 fuel n ds = Nat.toDigits 10 n ++ ds := by
  intro n
  induction n using Nat.strong_induction_on with
  | _ n ih =>
    intro fuel ds hfuel
    match fuel with
    | 0 => omega
    | f + 1 =>
      rw [Nat.toDigits]
      simp only [Nat.toDigitsCore]
      by_cases h10 : n / 10 = 0
      · simp [h10]
      · have hn : 0 < n := by
          rcases Nat.eq_zero_or_pos n with h | h
          · rw [h] at h10; simp at h10
          · exact h
        have hlt : n / 10 < n := Nat.div_lt_self hn (by omega)
        simp only [h10, if_false]
        rw [ih (n / 10) hlt f _ (by omega), ih (n / 10) hlt n _ (by omega)]
        simp

theorem toDigits10_eq (n : Nat) :
    Nat.toDigits 10 n =
      (if n / 10 = 0 then [] else Nat.toDigits 10 (n / 10)) ++ [Nat.digitChar (n % 10)] := by
  conv_lhs => rw [Nat.toDigits]
  simp only [Nat.toDigitsCore]
  by_cases h10 : n / 10 = 0
  · simp [h10]
  · have hn : 0 < n := by
      rcases Nat.eq_zero_or_pos n with h | h
      · rw [h] at h10; simp at h10
      · exact h
    have hlt : n / 10 < n := Nat.div_lt_self hn (by omega)
    simp only [h10, if_false]
    rw [toDigitsCore_shift (n / 10) n _ hlt]

theorem toDigits10_mem_dchars (n : Nat) : ∀ c ∈ Nat.toDigits 10 n, c ∈ dchars := by
  induction n using Nat.strong_induction_on with
  | _ n ih =>
    rw [toDigits10_eq]
    intro c hc
    rcases List.mem_append.mp hc with h | h
    · by_cases h10 : n / 10 = 0
      · simp [h10] at h
      · have hn : 0 < n := by
          rcases Nat.eq_zero_or_pos n with h0 | h0
          · rw [h0] at h10; simp at h10
          · exact h0
        rw [if_neg h10] at h
        exact ih (n / 10) (Nat.div_lt_self hn (by omega)) c h
    · rw [List.mem_singleton.mp h]
      exact digitChar_mem_dchars _ (Nat.mod_lt _ (by omega))

theorem toDigits10_ne_nil (n : Nat) : Nat.toDigits 10 n ≠ [] := by
  rw [toDigits10_eq]
  simp

theorem decVal_append_digit (l : List Char) (c : Char) :
    decVal (l ++ [c]) = decVal l * 10 + digitVal c := by
  unfold decVal
  rw [List.foldl_append]
  rfl

theorem decVal_toDigits10 (n : Nat) : decVal (Nat.toDigits 10 n) = n := by
  induction n using Nat.strong_induction_on with
  | _ n ih =>
    rw [toDigits10_eq, decVal_append_digit]
    by_cases h10 : n / 10 = 0
    · have hlt : n < 10 := by omega
      rw [if_pos h10]
      simp only [decVal, List.foldl_nil]
      rw [digitVal_digitChar _ (Nat.mod_lt _ (by omega))]
      omega
    · have hn : 0 < n := by
        rcases Nat.eq_zero_or_pos n with h0 | h0
        · rw [h0] at h10; simp at h10
        · exact h0
      rw [if_neg h10, ih (n / 10) (Nat.div_lt_self hn (by omega)),
          digitVal_digitChar _ (Nat.mod_lt _ (by omega))]
      omega

theorem digitsCore_all_digits :
    ∀ (l : List Char) (acc : Nat), (∀ c ∈ l, c.isDigit = true) →
      digitsCore l acc = some (l.foldl (fun a c => a * 10 + digitVal c) acc) := by
  intro l
  induction l with
  | nil => intro acc _; rfl
  | cons c rest ih =>
    intro acc h
    have hc : c.isDigit = true := h c (List.mem_cons_self c rest)
    have hne : ¬ c = '_' := by
      intro he
      rw [he] at hc
      simp at hc
    rw [digitsCore.eq_def]
    simp only [hne, if_false, hc, if_true, List.foldl_cons]
    exact ih _ (fun x hx => h x (List.mem_cons_of_mem c hx))

theorem digitsToNat_all_digits (l : List Char) (hne : l ≠ [])
    (h : ∀ c ∈ l, c.isDigit = true) : digitsToNat l = some (decVal l) := by
  cases l with
  | nil => exact absurd rfl hne
  | cons c rest =>
    have hc : c.isDigit = true := h c (List.mem_cons_self c rest)
    simp only [digitsToNat, hc, if_true]
    rw [digitsCore_all_digits rest (digitVal c)
          (fun x hx => h x (List.mem_cons_of_mem c hx))]
    simp only [decVal, List.foldl_cons]
    norm_num

theorem pyInt_natRepr (m : Nat) : pyInt (String.mk (Nat.toDigits 10 m)) = some (m : Int) := by
  have hmem := toDigits10_mem_dchars m
  have hstrip : pyStrip (String.mk (Nat.toDigits 10 m)) = String.mk (Nat.toDigits 10 m) :=
    pyStrip_eq_self (by intro c hc; exact dchars_not_pyWS (hmem c hc))
  unfold pyInt
  rw [hstrip]
  obtain ⟨c, rest, hl⟩ := List.exists_cons_of_ne_nil (toDigits10_ne_nil m)
  have hcd : c ∈ dchars := hmem c (by rw [hl]; exact List.mem_cons_self c rest)
  simp only [hl]
  rw [if_neg (dchars_ne_plus hcd), if_neg (dchars_ne_minus hcd)]
  rw [← hl, digitsToNat_all_digits _ (toDigits10_ne_nil m)
        (fun x hx => dchars_isDigit (hmem x hx)),
      decVal_toDigits10]
  rfl

theorem pyInt_intToString (n : Int) : pyInt (toString n) = some n := by
  match n with
  | Int.ofNat m =>
    show pyInt (String.mk (Nat.toDigits 10 m)) = some (Int.ofNat m)
    exact pyInt_natRepr m
  | Int.negSucc m =>
    show pyInt ("-" ++ String.mk (Nat.toDigits 10 (m + 1))) = some (Int.negSucc m)
    have hmem := toDigits10_mem_dchars (m + 1)
    have hdata : ("-" ++ String.mk (Nat.toDigits 10 (m + 1))).data
        = '-' :: Nat.toDigits 10 (m + 1) := by
      rw [String.data_append]
      rfl
    have hstrip : pyStrip ("-" ++ String.mk (Nat.toDigits 10 (m + 1)))
        = "-" ++ String.mk (Nat.toDigits 10 (m + 1)) := by
      apply pyStrip_eq_self
      rw [hdata]
      intro c hc
      rcases List.mem_cons.mp hc with h | h
      · rw [h]; decide
      · exact dchars_not_pyWS (hmem c h)
    unfold pyInt
    rw [hstrip, hdata]
    have hplus : (('-' : Char) = '+') = False := by decide
    have hminus : (('-' : Char) = '-') = True := by decide
    simp only [hplus, hminus, if_false, if_true]
    rw [digitsToNat_all_digits _ (toDigits10_ne_nil (m + 1))
          (fun x hx => dchars_isDigit (hmem x hx)),
        decVal_toDigits10]
    rfl

theorem intToString_ne_empty (n : Int) : toString n ≠ "" := by
  intro h
  have h2 := pyInt_intToString n
  rw [h] at h2
  simp only [pyInt] at h2
  have : (pyStrip "").data = [] := by decide
  rw [this] at h2
  exact Option.noConfusion h2

theorem intToString_no_quote (n : Int) :
    ∀ c ∈ (toString n).data, (c = '"' : Bool) = false := by
  match n with
  | Int.ofNat m =>
    show ∀ c ∈ (String.mk (Nat.toDigits 10 m)).data, _
    intro c hc
    exact dchars_ne_quote (toDigits10_mem_dchars m c hc)
  | Int.negSucc m =>
    show ∀ c ∈ ("-" ++ String.mk (Nat.toDigits 10 (m + 1))).data, _
    intro c hc
    rw [String.data_append] at hc
    rcases List.mem_append.mp hc with h | h
    · have : c = '-' := by simpa using h
      rw [this]; decide
    · exact dchars_ne_quote (toDigits10_mem_dchars (m + 1) c h)

/-! ### Range and token lemmas -/

theorem parse_ovol_range (s : String) : -30 ≤ _parse_ovol s ∧ _parse_ovol s ≤ 30 := by
  unfold _parse_ovol
  rcases h : pyInt s with _ | val <;> simp only [h]
  · simp
  · exact ⟨le_max_left _ _, max_le (by omega) (min_le_left _ _)⟩

theorem resolveOvol_range (fs : List (String × JVal)) :
    -30 ≤ resolveOvol fs ∧ resolveOvol fs ≤ 30 := by
  simp only [resolveOvol]
  rcases h : pyInt (stripQuotes (pyStr (jor (jor (jgetd fs "ovol") (jgetd fs "Ovol")) (.jstr "0"))))
    with _ | val <;> simp only [h]
  · simp
  · exact ⟨le_max_left _ _, max_le (by omega) (min_le_left _ _)⟩

theorem splitWSAux_ne_nil : ∀ (l cur : List Char) (t : List Char),
    t ∈ splitWSAux cur l → t ≠ [] := by
  intro l
  induction l with
  | nil =>
    intro cur t ht
    simp only [splitWSAux] at ht
    by_cases hcur : cur.isEmpty
    · simp [hcur] at ht
    · rw [if_neg hcur] at ht
      rw [List.mem_singleton.mp ht]
      simp only [ne_eq, List.reverse_eq_nil_iff]
      intro h
      rw [h] at hcur
      exact hcur rfl
  | cons c rest ih =>
    intro cur t ht
    simp only [splitWSAux] at ht
    by_cases hws : pyWS c
    · rw [if_pos hws] at ht
      by_cases hcur : cur.isEmpty
      · rw [if_pos hcur] at ht
        exact ih [] t ht
      · rw [if_neg hcur] at ht
        rcases List.mem_cons.mp ht with h | h
        · rw [h]
          simp only [ne_eq, List.reverse_eq_nil_iff]
          intro h2
          rw [h2] at hcur
          exact hcur rfl
        · exact ih [] t h
    · rw [if_neg hws] at ht
      exact ih (c :: cur) t ht

theorem pySplitWS_tok_ne_empty {line : String} {t : String}
    (h : t ∈ pySplitWS line) : t ≠ "" := by
  unfold pySplitWS at h
  obtain ⟨cs, hcs, hmk⟩ := List.mem_map.mp h
  rw [← hmk]
  intro he
  exact splitWSAux_ne_nil _ _ _ hcs ((string_mk_eq_empty_iff cs).mp he)

theorem tokenizeTab_tok_ne_empty {line : String} {t : String}
    (h : t ∈ tokenizeTab line) : t ≠ "" := by
  unfold tokenizeTab at h
  have := List.of_mem_filter h
  simpa using this

theorem tokenizeTwoSpace_tok_ne_empty {line : String} {t : String}
    (h : t ∈ tokenizeTwoSpace line) : t ≠ "" := by
  unfold tokenizeTwoSpace at h
  have := List.of_mem_filter h
  simpa using this

theorem joinSpace_cons_ne_empty (t : String) (ts : List String) (h : t ≠ "") :
    joinSpace (t :: ts) ≠ "" := by
  cases ts with
  | nil => simpa [joinSpace]
  | cons t2 ts2 =>
    show t ++ " " ++ joinSpace (t2 :: ts2) ≠ ""
    intro he
    have hlen := congrArg String.length he
    simp only [String.length_append] at hlen
    have ht : 0 < t.length ∨ 0 < (" " : String).length := Or.inr (by decide)
    have : (("" : String)).length = 0 := by decide
    rw [this] at hlen
    omega

/-! ### url_to_name produces no slash -/

theorem appendNameChar_no_slash (acc : List Char) (c : Char)
    (h : '/' ∉ acc) : '/' ∉ appendNameChar acc c := by
  unfold appendNameChar
  by_cases hc : c = '/' ∨ c = '=' ∨ c = '&' ∨ c = '?'
  · rw [if_pos hc]
    by_cases hlast : 0 < acc.length ∧ acc.getLast? ≠ some '-'
    · rw [if_pos hlast]
      intro hmem
      rcases List.mem_append.mp hmem with h2 | h2
      · exact h h2
      · simp at h2
    · rw [if_neg hlast]; exact h
  · rw [if_neg hc]
    intro hmem
    rcases List.mem_append.mp hmem with h2 | h2
    · exact h h2
    · exact hc (Or.inl (List.mem_singleton.mp h2).symm)

theorem urlToName_no_slash_aux (n : Nat) :
    ∀ (chars : List Char), chars.length ≤ n → ∀ (maxLen : Nat) (acc : List Char),
      '/' ∉ acc →
      '/' ∉ urlToNameLoop maxLen chars acc ∧ '/' ∉ urlToNameSkip maxLen chars acc := by
  induction n with
  | zero =>
    intro chars hlen maxLen acc h
    have : chars = [] := List.length_eq_zero.mp (by omega)
    rw [this, urlToNameLoop, urlToNameSkip]
    exact ⟨h, h⟩
  | succ n ih =>
    intro chars hlen maxLen acc h
    match chars with
    | [] =>
      rw [urlToNameLoop, urlToNameSkip]
      exact ⟨h, h⟩
    | c :: rest =>
      have hrest : rest.length ≤ n := by
        simp only [List.length_cons] at hlen
        omega
      constructor
      · rw [urlToNameLoop]
        by_cases h1 : maxLen - 1 ≤ acc.length
        · rw [if_pos h1]; exact h
        · rw [if_neg h1]
          by_cases h2 : c = ':' ∧ headIsDigit rest
          · rw [if_pos h2]
            exact (ih rest hrest maxLen acc h).2
          · rw [if_neg h2]
            exact (ih rest hrest maxLen (appendNameChar acc c)
              (appendNameChar_no_slash acc c h)).1
      · rw [urlToNameSkip]
        by_cases h1 : c = '/'
        · rw [if_pos h1]
          exact (ih rest hrest maxLen (appendNameChar acc c)
            (appendNameChar_no_slash acc c h)).1
        · rw [if_neg h1]
          exact (ih rest hrest maxLen acc h).2

theorem url_to_name_no_slash (url : String) (max_len : Nat) :
    '/' ∉ (url_to_name url max_len).data := by
  intro hmem
  have hmem2 : ('/' : Char) ∈ ((urlToNameLoop max_len
      (if pyStartsWith url "http://" then String.mk (url.data.drop 7)
       else if pyStartsWith url "https://" then String.mk (url.data.drop 8)
       else url).data []).reverse.dropWhile (fun c => c = '-')).reverse := hmem
  rw [List.mem_reverse] at hmem2
  have h2 := (List.dropWhile_sublist _).subset hmem2
  rw [List.mem_reverse] at h2
  exact (urlToName_no_slash_aux _ _ le_rfl max_len [] (by simp)).1 h2

/-! ### Dictionary lookup lemmas -/

theorem jget_cons_self (k : String) (v : JVal) (fs : List (String × JVal)) :
    jget ((k, v) :: fs) k = some v := by
  unfold jget
  rw [List.find?_cons_of_pos _ (by simp)]
  rfl

theorem jget_cons_ne (k k' : String) (v : JVal) (fs : List (String × JVal))
    (h : k' ≠ k) : jget ((k', v) :: fs) k = jget fs k := by
  unfold jget
  rw [List.find?_cons_of_neg _ (by simp [h])]

theorem resolveName_cons (k : String) (v : JVal) (fs : List (String × JVal))
    (h1 : k ≠ "name") (h2 : k ≠ "Name") (h3 : k ≠ "title") :
    resolveName ((k, v) :: fs) = resolveName fs := by
  unfold resolveName jgetd
  rw [jget_cons_ne _ _ _ _ h1, jget_cons_ne _ _ _ _ h2, jget_cons_ne _ _ _ _ h3]

theorem synthUrl_cons (k : String) (v : JVal) (fs : List (String × JVal))
    (h1 : k ≠ "host") (h2 : k ≠ "URL") (h3 : k ≠ "file") (h4 : k ≠ "File")
    (h5 : k ≠ "port") (h6 : k ≠ "Port") :
    synthUrl ((k, v) :: fs) = synthUrl fs := by
  unfold synthUrl jgetd
  rw [jget_cons_ne _ _ _ _ h1, jget_cons_ne _ _ _ _ h2, jget_cons_ne _ _ _ _ h3,
      jget_cons_ne _ _ _ _ h4, jget_cons_ne _ _ _ _ h5, jget_cons_ne _ _ _ _ h6]

theorem resolveOvol_cons (k : String) (v : JVal) (fs : List (String × JVal))
    (h1 : k ≠ "ovol") (h2 : k ≠ "Ovol") :
    resolveOvol ((k, v) :: fs) = resolveOvol fs := by
  unfold resolveOvol jgetd
  rw [jget_cons_ne _ _ _ _ h1, jget_cons_ne _ _ _ _ h2]

/-! ### Claim C1 (code_bug evidence)

The specification promises that parse_json_line resolves every recoverable
condition locally and never raises: a line that is valid JSON but cannot
yield a record is turned into None.  The code only catches JSONDecodeError
(line 233): a valid-JSON line that decodes to a non-object (for example the
line "5") reaches obj.get on an int and raises AttributeError to the
caller, and an object whose url field is a non-string truthy value (for
example from the line with url mapped to the number 7) raises
AttributeError at url.strip() (line 270). -/

/-- C1: the claimed never-raises property fails on the code: the decoded
line "5" and the decoded object mapping url to the number 7 both escape
parse_json_line with an AttributeError instead of resolving to None. -/
theorem parse_json_line_raises_on_nonrecord_json :
    parseJsonObj (.jnum 5) = .error .attributeError ∧
    parseJsonObj (.jobj [("url", .jnum 7)]) = .error .attributeError :=
  ⟨rfl, rfl⟩

/-! ### Claim C7 -/

/-- C7: isOvolToken accepts exactly the decimal strings of the integers in
[-64, 64] (false outside the range and on every non-numeric token), and
parseOvol clamps the accepted boundary token "64" to 30 while "65" is
rejected by isOvolToken outright. -/
theorem ovol_token_recognition_spec :
    (∀ n : Int, -64 ≤ n → n ≤ 64 → _is_ovol (toString n) = true) ∧
    (∀ n : Int, n < -64 ∨ 64 < n → _is_ovol (toString n) = false) ∧
    (∀ s : String, pyInt s = none → _is_ovol s = false) ∧
    _parse_ovol "64" = 30 ∧
    _is_ovol "65" = false := by
  refine ⟨?_, ?_, ?_, by decide, by decide⟩
  · intro n h1 h2
    unfold _is_ovol
    rw [pyInt_intToString n]
    show (decide (-64 ≤ n) && decide (n ≤ 64)) = true
    simp only [Bool.and_eq_true, decide_eq_true_eq]
    exact ⟨h1, h2⟩
  · intro n h
    unfold _is_ovol
    rw [pyInt_intToString n]
    show (decide (-64 ≤ n) && decide (n ≤ 64)) = false
    rcases h with h | h <;> simp only [Bool.and_eq_false_iff, decide_eq_false_iff_not]
    · left; omega
    · right; omega
  · intro s h
    unfold _is_ovol
    rw [h]

/-- Witness for C7 at the concrete tokens 5, 100 and "radio". -/
theorem ovol_token_recognition_spec_witness :
    _is_ovol (toString (5 : Int)) = true ∧
    _is_ovol (toString (100 : Int)) = false ∧
    _is_ovol "radio" = false :=
  ⟨ovol_token_recognition_spec.1 5 (by decide) (by decide),
   ovol_token_recognition_spec.2.1 100 (Or.inr (by decide)),
   ovol_token_recognition_spec.2.2.1 "radio" (by decide)⟩

/-! ### Claim C8 (corrected) -/

/-- C8, counterexample: a name taken verbatim from an input token is not
slash-free: the tab-delimited line "My/Name\thttp://a.b/c" emits the
record whose name "My/Name" contains a slash. -/
theorem verbatim_name_contains_slash :
    _parse_tab_delimited "My/Name\thttp://a.b/c"
      = some ⟨"My/Name", "http://a.b/c", 0⟩ ∧
    "My/Name".data.contains '/' = true :=
  ⟨by decide, by decide⟩

/-- C8, amended: names synthesized by url_to_name contain no slash (each
slash of the URL is replaced by a hyphen); names taken verbatim from input
tokens are copied unchanged and may contain slashes (and are not
whitespace-collapsed). -/
theorem url_derived_name_slash_free (url : String) (max_len : Nat) :
    (url_to_name url max_len).data.contains '/' = false := by
  have h := url_to_name_no_slash url max_len
  rw [List.contains_eq_any_beq, List.any_eq_false]
  intro c hc hbeq
  have he : ('/' : Char) = c := eq_of_beq hbeq
  rw [← he] at hc
  exact h hc

/-! ### Claim C9 groundwork: the two token-list logics coincide -/

theorem parseTokens_eq (toks : List String) : parseTabTokens toks = parseTwoSpaceTokens toks := rfl

/-! ### Claim C5 groundwork: ovol range per entry point -/

theorem parseTabTokens_ovol_range (toks : List String) (r : Record)
    (h : parseTabTokens toks = some r) : -30 ≤ r.ovol ∧ r.ovol ≤ 30 := by
  match toks with
  | [] => simp [parseTabTokens] at h
  | [tok] =>
    simp only [parseTabTokens] at h
    split at h
    · injection h with h2
      rw [← h2]
      constructor <;> norm_num
    · cases h
  | [t0, t1] =>
    simp only [parseTabTokens] at h
    cases h0 : _is_url t0 <;> cases h1 : _is_url t1 <;> simp [h0, h1] at h
    · rw [← h]
      constructor <;> norm_num
    · rw [← h]
      constructor <;> norm_num
  | t0 :: t1 :: t2 :: rest =>
    simp only [parseTabTokens] at h
    rcases hf : (t0 :: t1 :: t2 :: rest).findIdx? _is_url with _ | ui <;>
      simp only [hf] at h
    · cases h
    · rcases ho : (t0 :: t1 :: t2 :: rest).enum.find?
          (fun it => decide (it.1 ≠ ui) && _is_ovol it.2) with _ | it <;>
        simp only [ho] at h
      · injection h with h2
        rw [← h2]
        constructor <;> norm_num
      · injection h with h2
        rw [← h2]
        exact parse_ovol_range it.2

theorem parseSpace_ovol_range (line : String) (r : Record)
    (h : _parse_space_delimited line = some r) : -30 ≤ r.ovol ∧ r.ovol ≤ 30 := by
  unfold _parse_space_delimited at h
  rcases hf : (pySplitWS line).findIdx? _is_url with _ | ui <;> simp only [hf] at h
  · cases h
  · by_cases hui : 0 < ui <;> simp only [hui, if_true, if_false] at h
    · by_cases hov : _is_ovol ((pySplitWS line).getLast?.getD "") <;>
        simp only [hov, if_true, if_false] at h
      · injection h with h2
        rw [← h2]
        exact parse_ovol_range _
      · injection h with h2
        rw [← h2]
        constructor <;> norm_num
    · injection h with h2
      rw [← h2]
      constructor <;> norm_num

theorem parseJsonObj_ovol_range (v : JVal) (r : JRecord)
    (h : parseJsonObj v = .ok (some r)) : -30 ≤ r.ovol ∧ r.ovol ≤ 30 := by
  match v with
  | .jnull => simp [parseJsonObj] at h
  | .jbool b => simp [parseJsonObj] at h
  | .jnum n => simp [parseJsonObj] at h
  | .jstr s => simp [parseJsonObj] at h
  | .jarr xs => simp [parseJsonObj] at h
  | .jobj fs =>
    simp only [parseJsonObj] at h
    rcases hu : resolveUrl fs with e | o <;> simp only [hu] at h
    · cases h
    · rcases o with _ | u <;> simp only [] at h
      · cases h
      · by_cases hs : pyStrip u = "" <;> simp only [hs, if_true, if_false] at h
        · cases h
        · injection h with h2
          injection h2 with h3
          rw [← h3]
          exact resolveOvol_range fs

/-- C5: every record emitted by any of the four parser entry points carries
a volume offset inside [-30, 30]. -/
theorem emitted_ovol_within_range :
    (∀ line r, _parse_tab_delimited line = some r → -30 ≤ r.ovol ∧ r.ovol ≤ 30) ∧
    (∀ line r, _parse_two_space_delimited line = some r → -30 ≤ r.ovol ∧ r.ovol ≤ 30) ∧
    (∀ line r, _parse_space_delimited line = some r → -30 ≤ r.ovol ∧ r.ovol ≤ 30) ∧
    (∀ v r, parseJsonObj v = .ok (some r) → -30 ≤ r.ovol ∧ r.ovol ≤ 30) := by
  refine ⟨?_, ?_, ?_, ?_⟩
  · intro line r h
    exact parseTabTokens_ovol_range _ _ h
  · intro line r h
    unfold _parse_two_space_delimited at h
    rw [← parseTokens_eq] at h
    exact parseTabTokens_ovol_range _ _ h
  · intro line r h
    exact parseSpace_ovol_range _ _ h
  · intro v r h
    exact parseJsonObj_ovol_range _ _ h

/-- Witness for C5 on a concrete line and a concrete JSON object. -/
theorem emitted_ovol_within_range_witness :
    (-30 ≤ (Record.mk "My Station" "http://stream.example.com/live" 5).ovol ∧
      (Record.mk "My Station" "http://stream.example.com/live" 5).ovol ≤ 30) ∧
    (-30 ≤ (JRecord.mk (.jstr "A") "http://a.b/c" (-5)).ovol ∧
      (JRecord.mk (.jstr "A") "http://a.b/c" (-5)).ovol ≤ 30) :=
  ⟨emitted_ovol_within_range.1 "My Station\thttp://stream.example.com/live\t5" _ (by decide),
   emitted_ovol_within_range.2.2.2
     (.jobj [("name", .jstr "A"), ("url", .jstr "http://a.b/c"), ("ovol", .jstr "-5")]) _ rfl⟩

/-! ### Claim C2 groundwork: name shape per entry point -/

theorem parseTabTokens_name (toks : List String) (hne : ∀ t ∈ toks, t ≠ "")
    (r : Record) (h : parseTabTokens toks = some r) :
    r.name ≠ "" ∨ r.name = url_to_name r.url := by
  match toks with
  | [] => simp [parseTabTokens] at h
  | [tok] =>
    simp only [parseTabTokens] at h
    split at h
    · injection h with h2
      rw [← h2]
      right
      rfl
    · cases h
  | [t0, t1] =>
    simp only [parseTabTokens] at h
    cases h0 : _is_url t0 <;> cases h1 : _is_url t1 <;> simp [h0, h1] at h
    · rw [← h]
      left
      exact hne t0 (by simp)
    · rw [← h]
      left
      exact hne t1 (by simp)
  | t0 :: t1 :: t2 :: rest =>
    simp only [parseTabTokens] at h
    rcases hf : (t0 :: t1 :: t2 :: rest).findIdx? _is_url with _ | ui <;>
      simp only [hf] at h
    · cases h
    · rcases ho : (t0 :: t1 :: t2 :: rest).enum.find?
          (fun it => decide (it.1 ≠ ui) && _is_ovol it.2) with _ | it <;>
        simp only [ho] at h
      · rcases hn : (t0 :: t1 :: t2 :: rest).enum.find?
            (fun it => decide (it.1 ≠ ui) &&
              decide (Option.map (fun it => it.1) (none : Option (Nat × String)) ≠ some it.1) &&
              decide (it.2 ≠ "")) with _ | itn <;> simp only [hn] at h
        · injection h with h2
          rw [← h2]
          right
          rfl
        · injection h with h2
          rw [← h2]
          left
          have hp := List.find?_some hn
          simp only [Bool.and_eq_true, decide_eq_true_eq] at hp
          exact hp.2
      · rcases hn : (t0 :: t1 :: t2 :: rest).enum.find?
            (fun itx => decide (itx.1 ≠ ui) &&
              decide (Option.map (fun it => it.1) (some it) ≠ some itx.1) &&
              decide (itx.2 ≠ "")) with _ | itn <;> simp only [hn] at h
        · injection h with h2
          rw [← h2]
          right
          rfl
        · injection h with h2
          rw [← h2]
          left
          have hp := List.find?_some hn
          simp only [Bool.and_eq_true, decide_eq_true_eq] at hp
          exact hp.2

theorem parseSpace_name (line : String) (r : Record)
    (h : _parse_space_delimited line = some r) :
    r.name ≠ "" ∨ r.name = url_to_name r.url := by
  unfold _parse_space_delimited at h
  rcases hf : (pySplitWS line).findIdx? _is_url with _ | ui <;> simp only [hf] at h
  · cases h
  · by_cases hui : 0 < ui <;> simp only [hui, if_true, if_false] at h
    · by_cases hX : (pySplitWS line).getD 0 "" = "" <;> simp only [hX, if_true, if_false] at h
      · injection h with h2
        rw [← h2]
        right
        rfl
      · injection h with h2
        rw [← h2]
        left
        exact hX
    · by_cases hlen : ui + 1 < (pySplitWS line).length <;>
        simp only [hlen, if_true, if_false] at h
      · by_cases hX : joinSpace ((pySplitWS line).drop (ui + 1)) = "" <;>
          simp only [hX, if_true, if_false] at h
        · injection h with h2
          rw [← h2]
          right
          rfl
        · injection h with h2
          rw [← h2]
          left
          exact hX
      · injection h with h2
        rw [← h2]
        right
        rfl

theorem parseJsonObj_name (v : JVal) (r : JRecord)
    (h : parseJsonObj v = .ok (some r)) :
    truthy r.name = true ∨ r.name = .jstr (url_to_name r.url) := by
  match v with
  | .jnull => simp [parseJsonObj] at h
  | .jbool b => simp [parseJsonObj] at h
  | .jnum n => simp [parseJsonObj] at h
  | .jstr s => simp [parseJsonObj] at h
  | .jarr xs => simp [parseJsonObj] at h
  | .jobj fs =>
    simp only [parseJsonObj] at h
    rcases hu : resolveUrl fs with e | o <;> simp only [hu] at h
    · cases h
    · rcases o with _ | u <;> simp only [] at h
      · cases h
      · by_cases hs : pyStrip u = "" <;> simp only [hs, if_true, if_false] at h
        · cases h
        · by_cases ht : truthy (resolveName fs) <;> simp only [ht, if_true, if_false] at h
          · injection h with h2
            injection h2 with h3
            rw [← h3]
            left
            exact ht
          · injection h with h2
            injection h2 with h3
            rw [← h3]
            right
            rfl

/-- C2, counterexample: the single-token line "http://" (a URL by the
starts-with-http rule) yields the record with the empty name: the URL-derived
fallback url_to_name("http://") is itself empty, so the emitted name is not
a non-empty string as claimed. -/
theorem space_parser_emits_empty_name :
    _parse_space_delimited "http://" = some ⟨"", "http://", 0⟩ ∧
    ¬ (∀ line r, _parse_space_delimited line = some r → r.name ≠ "") :=
  ⟨by decide, fun hall => hall "http://" ⟨"", "http://", 0⟩ (by decide) rfl⟩

/-- C2, amended: for every record emitted by any parser entry point, either
the name is non-empty (truthy, for the JSON path, whose name keeps the raw
JSON value) or it is exactly url_to_name of the record's URL — so a name is
synthesized from the URL whenever no name token is available, but that
synthesized name can itself be empty for degenerate URLs such as
"http://". -/
theorem parser_name_nonempty_or_url_derived :
    (∀ line r, _parse_tab_delimited line = some r →
      r.name ≠ "" ∨ r.name = url_to_name r.url) ∧
    (∀ line r, _parse_two_space_delimited line = some r →
      r.name ≠ "" ∨ r.name = url_to_name r.url) ∧
    (∀ line r, _parse_space_delimited line = some r →
      r.name ≠ "" ∨ r.name = url_to_name r.url) ∧
    (∀ v r, parseJsonObj v = .ok (some r) →
      truthy r.name = true ∨ r.name = .jstr (url_to_name r.url)) := by
  refine ⟨?_, ?_, ?_, ?_⟩
  · intro line r h
    exact parseTabTokens_name _ (fun t ht => tokenizeTab_tok_ne_empty ht) _ h
  · intro line r h
    unfold _parse_two_space_delimited at h
    rw [← parseTokens_eq] at h
    exact parseTabTokens_name _ (fun t ht => tokenizeTwoSpace_tok_ne_empty ht) _ h
  · intro line r h
    exact parseSpace_name _ _ h
  · intro v r h
    exact parseJsonObj_name _ _ h

/-- Witness for C2 (amended) on a concrete tab line and a concrete JSON
object. -/
theorem parser_name_nonempty_or_url_derived_witness :
    ((Record.mk "a" "http://b.c/d" 0).name ≠ "" ∨
      (Record.mk "a" "http://b.c/d" 0).name = url_to_name (Record.mk "a" "http://b.c/d" 0).url) ∧
    (truthy (JRecord.mk (.jstr "A FM") "http://a.fm/s" 0).name = true ∨
      (JRecord.mk (.jstr "A FM") "http://a.fm/s" 0).name
        = .jstr (url_to_name (JRecord.mk (.jstr "A FM") "http://a.fm/s" 0).url)) :=
  ⟨parser_name_nonempty_or_url_derived.1 "a\tb.c/d" _ (by decide),
   parser_name_nonempty_or_url_derived.2.2.2
     (.jobj [("url_resolved", .jstr "http://a.fm/s"), ("name", .jstr "A FM")]) _ rfl⟩

/-! ### Claim C3 (corrected) -/

/-- C3, counterexample: a single-whitespace-delimited line with exactly two
tokens that are BOTH URL tokens does produce a record (the space parser has
no two-token ambiguity rejection: it takes the first URL and joins the rest
as the name), contradicting the claim that no record is produced. -/
theorem space_parser_two_url_tokens_record :
    pySplitWS "a.b/c d.e/f" = ["a.b/c", "d.e/f"] ∧
    _is_url "a.b/c" = true ∧ _is_url "d.e/f" = true ∧
    _parse_space_delimited "a.b/c d.e/f" = some ⟨"d.e/f", "http://a.b/c", 0⟩ :=
  ⟨by decide, by decide, by decide, by decide⟩

/-- C3, amended: on a line with exactly two tokens, the tab-delimited and
two-space-delimited parsers reject both the neither-URL and the both-URL
case; the single-whitespace parser rejects only the neither-URL case, and
emits a record (first token as URL, second as name) when both tokens are
URLs. -/
theorem two_token_ambiguity_rejection :
    (∀ line t0 t1, tokenizeTab line = [t0, t1] → _is_url t0 = _is_url t1 →
      _parse_tab_delimited line = none) ∧
    (∀ line t0 t1, tokenizeTwoSpace line = [t0, t1] → _is_url t0 = _is_url t1 →
      _parse_two_space_delimited line = none) ∧
    (∀ line t0 t1, pySplitWS line = [t0, t1] → _is_url t0 = false → _is_url t1 = false →
      _parse_space_delimited line = none) ∧
    (∀ line t0 t1, pySplitWS line = [t0, t1] → _is_url t0 = true → _is_url t1 = true →
      ∃ r, _parse_space_delimited line = some r) := by
  refine ⟨?_, ?_, ?_, ?_⟩
  · intro line t0 t1 hsplit heq
    unfold _parse_tab_delimited
    rw [hsplit]
    cases hb : _is_url t0 <;> rw [hb] at heq <;>
      simp [parseTabTokens, hb, ← heq]
  · intro line t0 t1 hsplit heq
    unfold _parse_two_space_delimited
    rw [hsplit, ← parseTokens_eq]
    cases hb : _is_url t0 <;> rw [hb] at heq <;>
      simp [parseTabTokens, hb, ← heq]
  · intro line t0 t1 hsplit h0 h1
    unfold _parse_space_delimited
    rw [hsplit]
    have hf : List.findIdx? _is_url [t0, t1] = none := by
      simp [List.findIdx?_cons, h0, h1]
    simp only [hf]
  · intro line t0 t1 hsplit h0 h1
    unfold _parse_space_delimited
    rw [hsplit]
    have hf : List.findIdx? _is_url [t0, t1] = some 0 := by
      simp [List.findIdx?_cons, h0]
    simp only [hf]
    exact ⟨_, rfl⟩

/-- Witness for C3 (amended) at concrete two-token lines. -/
theorem two_token_ambiguity_rejection_witness :
    _parse_tab_delimited "a.b/c\td.e/f" = none ∧
    _parse_two_space_delimited "alpha  beta" = none ∧
    _parse_space_delimited "alpha beta" = none ∧
    ∃ r, _parse_space_delimited "a.b/c d.e/f" = some r :=
  ⟨two_token_ambiguity_rejection.1 "a.b/c\td.e/f" "a.b/c" "d.e/f" (by decide) (by decide),
   two_token_ambiguity_rejection.2.1 "alpha  beta" "alpha" "beta" (by decide) (by decide),
   two_token_ambiguity_rejection.2.2.1 "alpha beta" "alpha" "beta" (by decide) (by decide)
     (by decide),
   two_token_ambiguity_rejection.2.2.2 "a.b/c d.e/f" "a.b/c" "d.e/f" (by decide) (by decide)
     (by decide)⟩

/-! ### Claim C4 -/

/-- C4: on a single-whitespace-delimited line whose first URL token sits at
index i, the parser emits: for i > 0, the first token verbatim as name and
parseOvol of the last token (when it is an ovol token, else 0) as ovol; for
i = 0, the single-space join of the tokens after the URL as name (the
URL-derived name when there are none) and ovol 0. -/
theorem space_delimited_url_position_shape (line : String) (i : Nat)
    (hf : (pySplitWS line).findIdx? _is_url = some i) :
    (0 < i → _parse_space_delimited line =
      some ⟨(pySplitWS line).getD 0 "",
            _normalize_url ((pySplitWS line).getD i ""),
            if _is_ovol ((pySplitWS line).getLast?.getD "")
            then _parse_ovol ((pySplitWS line).getLast?.getD "") else 0⟩) ∧
    (i = 0 → _parse_space_delimited line =
      some ⟨if 1 < (pySplitWS line).length
            then joinSpace ((pySplitWS line).drop 1)
            else url_to_name (_normalize_url ((pySplitWS line).getD 0 "")),
            _normalize_url ((pySplitWS line).getD 0 ""), 0⟩) := by
  have hne : pySplitWS line ≠ [] := by
    intro h
    rw [h] at hf
    simp at hf
  constructor
  · intro hi
    unfold _parse_space_delimited
    simp only [hf, if_pos hi]
    have hname : (pySplitWS line).getD 0 "" ≠ "" := by
      obtain ⟨t, ts, hl⟩ := List.exists_cons_of_ne_nil hne
      rw [hl]
      exact pySplitWS_tok_ne_empty (by rw [hl]; exact List.mem_cons_self t ts)
    rw [if_neg hname]
  · intro hi
    subst hi
    unfold _parse_space_delimited
    simp only [hf, Nat.lt_irrefl, if_false, Nat.zero_add]
    by_cases hlen : 1 < (pySplitWS line).length
    · simp only [if_pos hlen]
      have hd : (pySplitWS line).drop 1 ≠ [] := by
        intro h
        have := List.length_drop 1 (pySplitWS line)
        rw [h] at this
        simp at this
        omega
      obtain ⟨t, ts, hl⟩ := List.exists_cons_of_ne_nil hd
      have hmem : t ∈ pySplitWS line :=
        List.drop_subset 1 _ (by rw [hl]; exact List.mem_cons_self t ts)
      rw [hl, if_neg (joinSpace_cons_ne_empty t ts (pySplitWS_tok_ne_empty hmem))]
    · simp only [if_neg hlen, if_true]

/-- Witness for C4 at a URL-at-index-2 line and a URL-first line. -/
theorem space_delimited_url_position_shape_witness :
    _parse_space_delimited "Loud Radio http://x.fm/s 99" =
      some ⟨"Loud", "http://x.fm/s", 0⟩ ∧
    _parse_space_delimited "http://x.fm/s Loud Radio" =
      some ⟨"Loud Radio", "http://x.fm/s", 0⟩ :=
  ⟨by
    have h := (space_delimited_url_position_shape "Loud Radio http://x.fm/s 99" 2
        (by decide)).1 (by decide)
    exact h.trans (by decide),
   by
    have h := (space_delimited_url_position_shape "http://x.fm/s Loud Radio" 0
        (by decide)).2 rfl
    exact h.trans (by decide)⟩

/-! ### Claim C9 -/

/-- C9: the tab-delimited parser and the two-or-more-space-delimited parser
compute the same function of the token list: two lines whose tokenizations
agree parse to identical results (the token-list logics are verbatim
copies). -/
theorem tab_and_two_space_parsers_agree (l1 l2 : String)
    (h : tokenizeTab l1 = tokenizeTwoSpace l2) :
    _parse_tab_delimited l1 = _parse_two_space_delimited l2 := by
  unfold _parse_tab_delimited _parse_two_space_delimited
  rw [h, parseTokens_eq]

/-- Witness for C9: a tab line and a double-space line with the same tokens
parse identically. -/
theorem tab_and_two_space_parsers_agree_witness :
    tokenizeTab "My Station\thttp://a.b/c\t5" = tokenizeTwoSpace "My Station  http://a.b/c  5" ∧
    _parse_tab_delimited "My Station\thttp://a.b/c\t5"
      = _parse_two_space_delimited "My Station  http://a.b/c  5" :=
  ⟨by decide,
   tab_and_two_space_parsers_agree "My Station\thttp://a.b/c\t5"
     "My Station  http://a.b/c  5" (by decide)⟩

/-! ### Claim C10 -/

/-- C10: a url_resolved or url key bound to a falsy value (empty string,
null, 0, false, empty containers) behaves exactly as if the key were
absent: the parse of the object equals the parse of the object without the
binding, so resolution falls through to the next strategy and no blank-URL
record can come from such a key. -/
theorem falsy_url_keys_fall_through (v : JVal) (fs : List (String × JVal))
    (hv : truthy v = false) :
    (jget fs "url_resolved" = none →
      parseJsonObj (.jobj (("url_resolved", v) :: fs)) = parseJsonObj (.jobj fs)) ∧
    (jget fs "url" = none →
      parseJsonObj (.jobj (("url", v) :: fs)) = parseJsonObj (.jobj fs)) := by
  constructor
  · intro habs
    have hkeys : urlFromKeys (("url_resolved", v) :: fs) = urlFromKeys fs := by
      unfold urlFromKeys
      rw [jget_cons_self, habs, jget_cons_ne _ _ _ _ (by decide)]
      simp [truthyOpt, hv]
    have hurl : resolveUrl (("url_resolved", v) :: fs) = resolveUrl fs := by
      unfold resolveUrl
      rw [hkeys,
        synthUrl_cons _ _ _ (by decide) (by decide) (by decide) (by decide) (by decide)
          (by decide)]
    simp only [parseJsonObj, hurl,
      resolveName_cons "url_resolved" v fs (by decide) (by decide) (by decide),
      resolveOvol_cons "url_resolved" v fs (by decide) (by decide)]
  · intro habs
    have hkeys : urlFromKeys (("url", v) :: fs) = urlFromKeys fs := by
      unfold urlFromKeys
      rw [jget_cons_ne _ _ _ _ (by decide), jget_cons_self, habs]
      simp [truthyOpt, hv]
    have hurl : resolveUrl (("url", v) :: fs) = resolveUrl fs := by
      unfold resolveUrl
      rw [hkeys,
        synthUrl_cons _ _ _ (by decide) (by decide) (by decide) (by decide) (by decide)
          (by decide)]
    simp only [parseJsonObj, hurl,
      resolveName_cons "url" v fs (by decide) (by decide) (by decide),
      resolveOvol_cons "url" v fs (by decide) (by decide)]

/-- Witness for C10: an empty-string url_resolved falls through to the url
key, and an empty-string url falls through to host synthesis. -/
theorem falsy_url_keys_fall_through_witness :
    parseJsonObj (.jobj [("url_resolved", .jstr ""), ("url", .jstr "http://a.fm/s")])
      = parseJsonObj (.jobj [("url", .jstr "http://a.fm/s")]) ∧
    parseJsonObj (.jobj [("url", .jstr ""), ("host", .jstr "b.fm")])
      = parseJsonObj (.jobj [("host", .jstr "b.fm")]) :=
  ⟨(falsy_url_keys_fall_through (.jstr "") [("url", .jstr "http://a.fm/s")] rfl).1 rfl,
   (falsy_url_keys_fall_through (.jstr "") [("host", .jstr "b.fm")] rfl).2 rfl⟩

/-! ### Claim C6 -/

theorem jget_nil (k : String) : jget [] k = none := rfl

theorem resolveOvol_written (name url : String) (ovol : Int)
    (h1 : -30 ≤ ovol) (h2 : ovol ≤ 30) :
    resolveOvol [("name", .jstr name), ("url", .jstr url), ("ovol", .jstr (toString ovol))]
      = ovol := by
  have hd : jgetd [("name", JVal.jstr name), ("url", JVal.jstr url),
      ("ovol", JVal.jstr (toString ovol))] "ovol" = .jstr (toString ovol) := by
    unfold jgetd
    rw [jget_cons_ne _ _ _ _ (by decide), jget_cons_ne _ _ _ _ (by decide), jget_cons_self]
    rfl
  have htr : truthy (JVal.jstr (toString ovol)) = true := by
    unfold truthy
    simp [intToString_ne_empty ovol]
  unfold resolveOvol
  rw [hd]
  have hbuf : jor (jor (.jstr (toString ovol))
      (jgetd [("name", JVal.jstr name), ("url", JVal.jstr url),
        ("ovol", JVal.jstr (toString ovol))] "Ovol")) (.jstr "0") = .jstr (toString ovol) := by
    unfold jor
    rw [htr]
    simp [htr]
  rw [hbuf]
  show (match pyInt (stripQuotes (toString ovol)) with
    | some val => max (-30) (min 30 val)
    | none => 0) = ovol
  rw [stripQuotes_eq_self (intToString_no_quote ovol), pyInt_intToString]
  show max (-30) (min 30 ovol) = ovol
  rw [min_eq_right h2, max_eq_right h1]

/-- C6: a record whose ovol lies in [-30, 30] (and whose URL is a real
record URL: non-blank after stripping, as every parser-emitted URL is,
carrying its http/https scheme), written by write_json_output and re-parsed
by parse_json_line, parses to a record with the same ovol. -/
theorem json_roundtrip_preserves_ovol (name url : String) (ovol : Int)
    (h1 : -30 ≤ ovol) (h2 : ovol ≤ 30) (h3 : pyStrip url ≠ "") :
    ∃ r : JRecord,
      parseJsonObj (writeJsonEntry name url ovol) = .ok (some r) ∧ r.ovol = ovol := by
  have hurlne : url ≠ "" := by
    intro h
    rw [h] at h3
    exact h3 (by decide)
  have ha : jget [("name", JVal.jstr name), ("url", JVal.jstr url),
      ("ovol", JVal.jstr (toString ovol))] "url_resolved" = none := by
    rw [jget_cons_ne _ _ _ _ (by decide), jget_cons_ne _ _ _ _ (by decide),
        jget_cons_ne _ _ _ _ (by decide), jget_nil]
  have hb : jget [("name", JVal.jstr name), ("url", JVal.jstr url),
      ("ovol", JVal.jstr (toString ovol))] "url" = some (.jstr url) := by
    rw [jget_cons_ne _ _ _ _ (by decide), jget_cons_self]
  have hkeys : urlFromKeys [("name", JVal.jstr name), ("url", JVal.jstr url),
      ("ovol", JVal.jstr (toString ovol))] = some (.jstr url) := by
    unfold urlFromKeys
    rw [ha, hb]
    have htr : truthy (JVal.jstr url) = true := by
      unfold truthy
      simp [hurlne]
    simp [truthyOpt, htr]
  have hresolve : resolveUrl [("name", JVal.jstr name), ("url", JVal.jstr url),
      ("ovol", JVal.jstr (toString ovol))] = .ok (some url) := by
    unfold resolveUrl
    rw [hkeys]
  refine ⟨⟨(if truthy (resolveName [("name", JVal.jstr name), ("url", JVal.jstr url),
        ("ovol", JVal.jstr (toString ovol))])
      then resolveName [("name", JVal.jstr name), ("url", JVal.jstr url),
        ("ovol", JVal.jstr (toString ovol))]
      else .jstr (url_to_name (_normalize_url url))),
    _normalize_url url,
    resolveOvol [("name", JVal.jstr name), ("url", JVal.jstr url),
      ("ovol", JVal.jstr (toString ovol))]⟩, ?_, ?_⟩
  · simp only [parseJsonObj, writeJsonEntry, hresolve]
    rw [if_neg h3]
  · exact resolveOvol_written name url ovol h1 h2

/-- Witness for C6 at the record ("A", "http://a.b/c", -5). -/
theorem json_roundtrip_preserves_ovol_witness :
    ∃ r : JRecord,
      parseJsonObj (writeJsonEntry "A" "http://a.b/c" (-5)) = .ok (some r) ∧ r.ovol = -5 :=
  json_roundtrip_preserves_ovol "A" "http://a.b/c" (-5) (by decide) (by decide) (by decide)

end Webstations
